import Mathlib

/-!
Verification of the retrieval pipeline of the repository
(`src/mcp_server/db.py` and `src/backend/mcp_client.py`).

Python strings are modelled as `List Char`; Python `int` values that are
known non-negative (sizes, counts) as `Nat`; embedding vectors as
`List Int` (the float scalars themselves are opaque to every claim, only
their count matters).  Remote calls are modelled by passing the remote
response in as a parameter.
-/

namespace McpTraining

/-- Models Python `str.split()` (no separator): split on runs of whitespace,
discarding empty pieces.  `acc` holds the current word reversed. -/
def pySplitAux : List Char → List Char → List (List Char)
  | [], acc => if acc = [] then [] else [acc.reverse]
  | c :: cs, acc =>
    if c.isWhitespace then
      if acc = [] then pySplitAux cs [] else acc.reverse :: pySplitAux cs []
    else pySplitAux cs (c :: acc)

/-- Python's `text.split()`. -/
def pySplit (t : List Char) : List (List Char) := pySplitAux t []

/-- Python's `" ".join(words)`. -/
def pyJoin : List (List Char) → List Char
  | [] => []
  | [w] => w
  | w :: w2 :: ws => w ++ ' ' :: pyJoin (w2 :: ws)

/-- Python's `s.strip()`: drop leading and trailing whitespace. -/
def pyStrip (s : List Char) : List Char :=
  ((s.dropWhile fun c => c.isWhitespace).reverse.dropWhile fun c => c.isWhitespace).reverse

/-- The running length `sum(len(w) + 1 for w in current_chunk)` of `_chunk_text`. -/
def sumLen (c : List (List Char)) : Nat := (c.map fun w => w.length + 1).sum

/-- The slice `current_chunk[-(overlap // 5):] if overlap > 0 else []` of `_chunk_text`.
Note the Python slicing gotcha: when `overlap // 5 == 0` the slice `[-0:]`
is the WHOLE list, not the empty list. -/
def overlapWords (overlap : Nat) (current : List (List Char)) : List (List Char) :=
  if overlap > 0 then
    if overlap / 5 = 0 then current
    else current.drop (current.length - overlap / 5)
  else []

/-- The word-accumulating loop of `_chunk_text` (db.py lines 101-115),
operating on the word list produced by `text.split()`.  `current` is
`current_chunk`, `curLen` is `current_len`. -/
def chunkLoop (chunk_size overlap : Nat) :
    List (List Char) → List (List Char) → Nat → List (List (List Char))
  | [], current, _ => if current = [] then [] else [current]
  | w :: ws, current, curLen =>
    if curLen + (w.length + 1) > chunk_size ∧ current ≠ [] then
      chunkLoop chunk_size overlap ws
        (overlapWords overlap current ++ [w])
        (sumLen (overlapWords overlap current ++ [w])) |>.cons current
    else
      chunkLoop chunk_size overlap ws (current ++ [w]) (curLen + (w.length + 1))

/-- Instrumented copy of `chunkLoop` that records, for every emitted chunk,
how many of its leading words were seeded by the overlap slice (0 for the
first chunk). -/
def chunkLoopA (chunk_size overlap : Nat) :
    List (List Char) → List (List Char) → Nat → Nat → List (Nat × List (List Char))
  | [], current, _, seed => if current = [] then [] else [(seed, current)]
  | w :: ws, current, curLen, seed =>
    if curLen + (w.length + 1) > chunk_size ∧ current ≠ [] then
      chunkLoopA chunk_size overlap ws
        (overlapWords overlap current ++ [w])
        (sumLen (overlapWords overlap current ++ [w]))
        (overlapWords overlap current).length |>.cons (seed, current)
    else
      chunkLoopA chunk_size overlap ws (current ++ [w]) (curLen + (w.length + 1)) seed

/-- Function `_chunk_text` (db.py lines 91-117): split into words, run the
accumulating loop, join each chunk with single spaces, then
`[c.strip() for c in chunks if c.strip()]`. -/
def _chunk_text (text : List Char) (chunk_size : Nat := 1200) (overlap : Nat := 200) :
    List (List Char) :=
  ((chunkLoop chunk_size overlap (pySplit text) [] 0).map pyJoin).map pyStrip
    |>.filter fun c => c ≠ []

/-- The chunks of `_chunk_text` viewed as word lists (before joining). -/
def chunkWordLists (text : List Char) (chunk_size overlap : Nat) :
    List (List (List Char)) :=
  chunkLoop chunk_size overlap (pySplit text) [] 0

/-- A word produced by `text.split()`: non-empty and whitespace-free. -/
def WordOK (w : List Char) : Prop := w ≠ [] ∧ ∀ c ∈ w, c.isWhitespace = false

/-- Relation between consecutive chunks recorded by `chunkLoopA`: the next
chunk's seed count is the length of the overlap slice of the previous chunk,
and its first `seed` words are exactly that slice. -/
def SeedStep (overlap : Nat) (p q : Nat × List (List Char)) : Prop :=
  q.1 = (overlapWords overlap p.2).length ∧ q.2.take q.1 = overlapWords overlap p.2

/-- Non-empty with a non-whitespace first character. -/
def HeadNW (s : List Char) : Prop := ∃ a t, s = a :: t ∧ a.isWhitespace = false

/-! ### Retry with exponential backoff (`src/backend/mcp_client.py`) -/

/-- Outcome of one attempt of the wrapped zero-argument operation.
`connErr` covers `httpx.ConnectError` and `httpx.TimeoutException`
(the connectivity/timeout failures caught by the first `except` arm);
`otherErr` covers every other exception. -/
inductive Outcome (α : Type) where
  | ok : α → Outcome α
  | connErr : String → Outcome α
  | otherErr : String → Outcome α
  deriving DecidableEq, Repr

/-- Observable result of `_retry_request`: the returned value, the implicit
`None` returned when the `for` loop runs zero iterations (`max_retries = 0`),
or the exception that propagates. -/
inductive RetryResult (α : Type) where
  | value : α → RetryResult α
  | noneReturned : RetryResult α
  | raisedConn : String → RetryResult α
  | raisedOther : String → RetryResult α
  deriving DecidableEq, Repr

/-- The message of the wrapping `httpx.ConnectError` raised after the last
failed attempt. -/
def connMsg (max_retries : Nat) (e : String) : String :=
  "Failed to connect to MCP server after " ++ toString max_retries
    ++ " attempts: " ++ e

/-- Is the attempt outcome a connectivity/timeout failure? -/
def isConnErr {α : Type} : Outcome α → Bool
  | Outcome.connErr _ => true
  | _ => false

/-- The `for attempt in range(max_retries)` loop of `_retry_request`
(mcp_client.py lines 12-22), starting at the given attempt index.  The
operation is modelled as a function from the attempt index to its outcome;
the second component records the durations of the `asyncio.sleep` calls
performed, in order. -/
def retryGo {α : Type} (op : Nat → Outcome α) (max_retries delay attempt : Nat) :
    RetryResult α × List Nat :=
  if h : attempt < max_retries then
    match op attempt with
    | Outcome.ok a => (RetryResult.value a, [])
    | Outcome.connErr e =>
      if attempt = max_retries - 1 then
        (RetryResult.raisedConn (connMsg max_retries e), [])
      else
        let r := retryGo op max_retries delay (attempt + 1)
        (r.1, delay * 2 ^ attempt :: r.2)
    | Outcome.otherErr e => (RetryResult.raisedOther e, [])
  else (RetryResult.noneReturned, [])
termination_by max_retries - attempt
decreasing_by omega

/-- Function `_retry_request(func, max_retries=3, delay=2)`. -/
def _retry_request {α : Type} (op : Nat → Outcome α)
    (max_retries : Nat := 3) (delay : Nat := 2) : RetryResult α × List Nat :=
  retryGo op max_retries delay 0

/-! ### Store, embedding and lifecycle operations (`src/mcp_server/db.py`)

Embedding vectors are modelled as `List Int`: every claim about them
concerns only their length, so the float scalars are represented by an
opaque integer stand-in.  UUIDs are modelled as `Nat` keys supplied by the
caller (`uuid.uuid4()` draws a fresh random value). -/

/-- Constant `EMBED_DIM = 1536  # for text-embedding-3-small` (db.py line 14). -/
def EMBED_DIM : Nat := 1536

/-- Python exceptions that the modelled functions raise or catch.
`storeError` stands for a `psycopg` / Postgres error. -/
inductive PyError where
  | valueError : String → PyError
  | runtimeError : String → PyError
  | storeError : String → PyError
  deriving DecidableEq, Repr

/-- Python `str(e)` on the modelled exceptions. -/
def pyErrMsg : PyError → String
  | PyError.valueError m => m
  | PyError.runtimeError m => m
  | PyError.storeError m => m

/-- The embedding provider's response to the single batched HTTP request of
`_embed_texts`: a well-formed 200 payload carrying one vector per `data`
entry, a non-200 status, a timeout, or a transport failure. -/
inductive ProviderResponse where
  | success : List (List Int) → ProviderResponse
  | httpStatus : Nat → String → ProviderResponse
  | timeout : ProviderResponse
  | requestError : String → ProviderResponse
  deriving DecidableEq, Repr

/-- A row of the `documents` table. -/
structure DocRow where
  id : Nat
  filename : List Char
  mime_type : Option (List Char)
  content : List Char
  deriving DecidableEq, Repr

/-- A row of the `doc_chunks` table (the random `id` column is not
modelled). -/
structure ChunkRow where
  doc_id : Nat
  chunk_index : Nat
  chunk_text : List Char
  embedding : List Int
  deriving DecidableEq, Repr

/-- The two tables created by `init_db`. -/
structure StoreState where
  documents : List DocRow
  doc_chunks : List ChunkRow
  deriving DecidableEq, Repr

/-- The dict with keys id and chunks returned by `add_document`. -/
structure AddAck where
  id : Nat
  chunks : Nat
  deriving DecidableEq, Repr

/-- The dict with the single key deleted returned by `delete_document`. -/
structure DeleteAck where
  deleted : Nat
  deriving DecidableEq, Repr

/-- A row of the similarity SELECT in `search_documents` (the float score
is an opaque integer stand-in: no claim depends on its value). -/
structure MatchRow where
  doc_id : Nat
  filename : List Char
  chunk_index : Nat
  chunk_text : List Char
  score : Int
  deriving DecidableEq, Repr

/-- The value returned by `search_documents`: always a dict with a
`matches` list (field `matchRows` here, since `matches` is reserved in
Lean), and an `error` string only on the caught-exception path. -/
structure SearchResult where
  matchRows : List MatchRow
  error : Option String
  deriving DecidableEq, Repr

/-- Function `_embed_texts` (db.py lines 119-149).  The texts are the request
payload; the provider's behavior is the `resp` parameter.  Python
`if not OPENAI_API_KEY` is true for both a missing and an empty key.
Note the source performs NO dimension check on the returned vectors. -/
def _embed_texts (texts : List (List Char)) (apiKey : Option String)
    (resp : ProviderResponse) : Except PyError (List (List Int)) :=
  if apiKey = none ∨ apiKey = some "" then
    Except.error (PyError.runtimeError
      "OPENAI_API_KEY is required for embeddings in MCP server")
  else
    match resp with
    | ProviderResponse.success vecs => Except.ok vecs
    | ProviderResponse.httpStatus code body =>
      Except.error (PyError.runtimeError
        ("OpenAI API error: " ++ toString code ++ " - " ++ body))
    | ProviderResponse.timeout =>
      Except.error (PyError.runtimeError "OpenAI API request timed out")
    | ProviderResponse.requestError m =>
      Except.error (PyError.runtimeError ("OpenAI API request failed: " ++ m))

/-- Modelled from the spec: the chunk INSERT loop of `add_document`
(db.py lines 165-171) against the Postgres store.  The `doc_chunks.embedding`
column is declared `VECTOR(1536)` by `init_db`, and the store (a relational
engine with a vector column type, per the spec) rejects a vector whose
length differs from the declared dimension; the connection is opened with
`autocommit=True`, so each successful INSERT is immediately durable and is
NOT rolled back when a later INSERT fails. -/
def insertChunksLoop (docId : Nat) : StoreState → Nat → List (List Char × List Int) →
    Option PyError × StoreState
  | st, _, [] => (none, st)
  | st, idx, (c, e) :: rest =>
    if e.length = EMBED_DIM then
      insertChunksLoop docId
        { st with doc_chunks := st.doc_chunks ++ [⟨docId, idx, c, e⟩] }
        (idx + 1) rest
    else
      (some (PyError.storeError
        ("expected " ++ toString EMBED_DIM ++ " dimensions, not "
          ++ toString e.length)), st)

/-- Function `add_document` (db.py lines 152-172).  `content = none` models Python
`None`; `docId` models the fresh `uuid.uuid4()`.  Validation:
`if not filename or content is None` — note an EMPTY content string passes.
On the happy path the document row is inserted first (and committed, via
autocommit), then the chunk rows in order. -/
def add_document (st : StoreState) (docId : Nat) (filename : List Char)
    (content : Option (List Char)) (mime_type : Option (List Char))
    (apiKey : Option String) (resp : ProviderResponse) :
    Except PyError AddAck × StoreState :=
  if filename = [] ∨ content = none then
    (Except.error (PyError.valueError "filename and content are required"), st)
  else
    let contentStr := content.getD []
    let chunks := _chunk_text contentStr 1200 200
    match (if chunks ≠ [] then _embed_texts chunks apiKey resp
           else Except.ok []) with
    | Except.error e => (Except.error e, st)
    | Except.ok embeddings =>
      let st1 : StoreState :=
        { st with documents := st.documents ++ [⟨docId, filename, mime_type, contentStr⟩] }
      match insertChunksLoop docId st1 0 (chunks.zip embeddings) with
      | (some e, st2) => (Except.error e, st2)
      | (none, st2) => (Except.ok ⟨docId, chunks.length⟩, st2)

/-- Function `delete_document` (db.py lines 185-189): a single
`DELETE FROM documents WHERE id = %s`; the `doc_chunks` rows go away through
the `ON DELETE CASCADE` foreign key declared by `init_db`.  The function
returns the deleted-acknowledgment dict unconditionally — deleting zero rows is not
an error. -/
def delete_document (st : StoreState) (docId : Nat) : DeleteAck × StoreState :=
  (⟨docId⟩,
   { documents := st.documents.filter fun d => d.id ≠ docId,
     doc_chunks := st.doc_chunks.filter fun c => c.doc_id ≠ docId })

/-- Function `search_documents` (db.py lines 192-238).  The environment is passed in:
the provider response, whether the `pg_extension` lookup finds `vector`
(`extensionPresent`), a connection/query failure oracle (`storeFail`, the
exception raised by `psycopg.connect` or a cursor call, if any), and the
rows the store returns for the similarity SELECT (`nnRows` — the ranking
happens inside Postgres and is not modelled).  Every exception raised inside
the `try` block is caught and converted to an empty-match result whose error
field carries `str(e)`. -/
def search_documents (query : List Char) (top_k : Nat) (apiKey : Option String)
    (resp : ProviderResponse) (extensionPresent : Bool) (st : StoreState)
    (storeFail : Option PyError) (nnRows : List MatchRow) : SearchResult :=
  if query = [] then ⟨[], none⟩
  else
    match _embed_texts [query] apiKey resp with
    | Except.error e => ⟨[], some (pyErrMsg e)⟩
    | Except.ok vecs =>
      match vecs with
      | [] => ⟨[], some "list index out of range"⟩
      | _ :: _ =>
        match storeFail with
        | some e => ⟨[], some (pyErrMsg e)⟩
        | none =>
          if extensionPresent = false then
            ⟨[], some "pgvector extension not found"⟩
          else if st.doc_chunks.length = 0 then ⟨[], none⟩
          else ⟨nnRows, none⟩

/-- Concrete operation used to exercise `_retry_request`: connectivity
failures on attempts 0 and 1, success on attempt 2. -/
def sampleOp : Nat → Outcome Nat :=
  fun j => if j < 2 then Outcome.connErr "boom" else Outcome.ok 42

/-- Concrete content of 300 five-character words; with the default
`chunk_size = 1200`, `overlap = 200` it produces exactly two chunks. -/
def sampleContent : List Char := (List.replicate 300 ("aaaa ".toList)).flatten

/-- A provider response whose first vector has the configured dimension and
whose second vector is one component short. -/
def sampleBadResp : ProviderResponse :=
  ProviderResponse.success
    [List.replicate 1536 (0 : Int), List.replicate 1535 (0 : Int)]

lemma pySplitAux_wordsOK : ∀ (t acc : List Char),
    (∀ c ∈ acc, c.isWhitespace = false) → ∀ w ∈ pySplitAux t acc, WordOK w := by
  intro t
  induction t with
  | nil =>
    intro acc hacc w hw
    simp only [pySplitAux] at hw
    split at hw
    · simp at hw
    · rename_i hne
      simp only [List.mem_singleton] at hw
      subst hw
      exact ⟨by simpa using hne, fun c hc => hacc c (List.mem_reverse.mp hc)⟩
  | cons c cs ih =>
    intro acc hacc w hw
    simp only [pySplitAux] at hw
    split at hw
    · split at hw
      · exact ih [] (by simp) w hw
      · rename_i hne
        rcases List.mem_cons.mp hw with h | h
        · subst h
          exact ⟨by simpa using hne, fun x hx => hacc x (List.mem_reverse.mp hx)⟩
        · exact ih [] (by simp) w h
    · rename_i hc
      refine ih (c :: acc) ?_ w hw
      intro x hx
      rcases List.mem_cons.mp hx with h | h
      · subst h; simpa using hc
      · exact hacc x h

lemma pySplit_wordsOK (t : List Char) : ∀ w ∈ pySplit t, WordOK w :=
  pySplitAux_wordsOK t [] (by simp)

lemma pySplit_all_ws : ∀ t : List Char, (∀ c ∈ t, c.isWhitespace = true) →
    pySplit t = [] := by
  intro t
  induction t with
  | nil => intro _; rfl
  | cons c cs ih =>
    intro h
    simp only [pySplit, pySplitAux, h c (by simp), if_true, if_pos rfl]
    exact ih fun x hx => h x (List.mem_cons_of_mem _ hx)

lemma chunkLoopA_map_snd (cs ov : Nat) : ∀ (ws current : List (List Char)) (curLen seed : Nat),
    (chunkLoopA cs ov ws current curLen seed).map Prod.snd
      = chunkLoop cs ov ws current curLen := by
  intro ws
  induction ws with
  | nil =>
    intro current curLen seed
    simp only [chunkLoopA, chunkLoop]
    split <;> simp
  | cons w ws ih =>
    intro current curLen seed
    simp only [chunkLoopA, chunkLoop]
    split
    · simp [ih]
    · exact ih ..

lemma chunkLoopA_spec (cs ov : Nat) : ∀ (ws current : List (List Char)) (curLen seed : Nat),
    current ≠ [] →
    (∃ ext rest, chunkLoopA cs ov ws current curLen seed = (seed, current ++ ext) :: rest) ∧
    List.Chain' (SeedStep ov) (chunkLoopA cs ov ws current curLen seed) := by
  intro ws
  induction ws with
  | nil =>
    intro current curLen seed h
    refine ⟨⟨[], [], ?_⟩, ?_⟩ <;> simp [chunkLoopA, h]
  | cons w ws ih =>
    intro current curLen seed h
    simp only [chunkLoopA]
    split
    · obtain ⟨⟨ext, rest, heq⟩, hchain⟩ :=
        ih (overlapWords ov current ++ [w])
          (sumLen (overlapWords ov current ++ [w]))
          (overlapWords ov current).length (by simp)
      refine ⟨⟨[], chunkLoopA cs ov ws (overlapWords ov current ++ [w])
        (sumLen (overlapWords ov current ++ [w])) (overlapWords ov current).length,
        by simp⟩, ?_⟩
      rw [heq] at hchain ⊢
      refine List.chain'_cons.mpr ⟨⟨rfl, ?_⟩, hchain⟩
      rw [List.append_assoc]
      exact List.take_left ..
    · obtain ⟨⟨ext, rest, heq⟩, hchain⟩ :=
        ih (current ++ [w]) (curLen + (w.length + 1)) seed (by simp)
      exact ⟨⟨[w] ++ ext, rest, by rw [heq, List.append_assoc]⟩, hchain⟩

lemma chunkLoopA_reconstruct (cs ov : Nat) : ∀ (ws current : List (List Char)) (curLen seed : Nat),
    seed ≤ current.length →
    ((chunkLoopA cs ov ws current curLen seed).map fun p => p.2.drop p.1).flatten
      = current.drop seed ++ ws := by
  intro ws
  induction ws with
  | nil =>
    intro current curLen seed _
    simp only [chunkLoopA]
    split
    · rename_i hc; subst hc; simp
    · simp
  | cons w ws ih =>
    intro current curLen seed hseed
    simp only [chunkLoopA]
    split
    · have hrec := ih (overlapWords ov current ++ [w])
        (sumLen (overlapWords ov current ++ [w]))
        (overlapWords ov current).length (by simp)
      simp only [List.map_cons, List.flatten_cons, hrec, List.drop_left,
        List.singleton_append]
    · have hrec := ih (current ++ [w]) (curLen + (w.length + 1)) seed
        (le_trans hseed (by simp))
      rw [hrec, List.drop_append_of_le_length hseed, List.append_assoc]
      simp

lemma chunkLoopA_ne_nil (cs ov : Nat) : ∀ (ws current : List (List Char)) (curLen seed : Nat),
    ∀ p ∈ chunkLoopA cs ov ws current curLen seed, p.2 ≠ [] := by
  intro ws
  induction ws with
  | nil =>
    intro current curLen seed p hp
    simp only [chunkLoopA] at hp
    split at hp
    · simp at hp
    · rename_i hne
      simp only [List.mem_singleton] at hp
      subst hp
      exact hne
  | cons w ws ih =>
    intro current curLen seed p hp
    simp only [chunkLoopA] at hp
    split at hp
    · rename_i hcond
      rcases List.mem_cons.mp hp with h | h
      · subst h; exact hcond.2
      · exact ih _ _ _ p h
    · exact ih _ _ _ p hp

lemma overlapWords_subset (ov : Nat) (current : List (List Char)) :
    ∀ x ∈ overlapWords ov current, x ∈ current := by
  intro x hx
  unfold overlapWords at hx
  split at hx
  · split at hx
    · exact hx
    · exact List.drop_subset _ _ hx
  · simp at hx

lemma chunkLoopA_words_mem (cs ov : Nat) : ∀ (ws current : List (List Char)) (curLen seed : Nat),
    ∀ p ∈ chunkLoopA cs ov ws current curLen seed, ∀ x ∈ p.2, x ∈ current ∨ x ∈ ws := by
  intro ws
  induction ws with
  | nil =>
    intro current curLen seed p hp x hx
    simp only [chunkLoopA] at hp
    split at hp
    · simp at hp
    · simp only [List.mem_singleton] at hp
      subst hp
      exact Or.inl hx
  | cons w ws ih =>
    intro current curLen seed p hp x hx
    simp only [chunkLoopA] at hp
    split at hp
    · rcases List.mem_cons.mp hp with h | h
      · subst h; exact Or.inl hx
      · rcases ih _ _ _ p h x hx with h2 | h2
        · rcases List.mem_append.mp h2 with h3 | h3
          · exact Or.inl (overlapWords_subset ov current x h3)
          · simp only [List.mem_singleton] at h3
            subst h3; exact Or.inr (List.mem_cons_self _ _)
        · exact Or.inr (List.mem_cons_of_mem _ h2)
    · rcases ih _ _ _ p hp x hx with h2 | h2
      · rcases List.mem_append.mp h2 with h3 | h3
        · exact Or.inl h3
        · simp only [List.mem_singleton] at h3
          subst h3; exact Or.inr (List.mem_cons_self _ _)
      · exact Or.inr (List.mem_cons_of_mem _ h2)

lemma chunkLoopA_covers (cs ov : Nat) : ∀ (ws current : List (List Char)) (curLen seed : Nat)
    (x : List Char), (x ∈ current ∨ x ∈ ws) →
    ∃ p ∈ chunkLoopA cs ov ws current curLen seed, x ∈ p.2 := by
  intro ws
  induction ws with
  | nil =>
    intro current curLen seed x hx
    rcases hx with h | h
    · have hne : current ≠ [] := by rintro rfl; simp at h
      exact ⟨(seed, current), by simp [chunkLoopA, hne], h⟩
    · simp at h
  | cons w ws ih =>
    intro current curLen seed x hx
    simp only [chunkLoopA]
    split
    · rcases hx with h | h
      · exact ⟨(seed, current), List.mem_cons_self _ _, h⟩
      · rcases List.mem_cons.mp h with h2 | h2
        · subst h2
          obtain ⟨p, hp, hxp⟩ := ih (overlapWords ov current ++ [x])
            (sumLen (overlapWords ov current ++ [x]))
            (overlapWords ov current).length x (Or.inl (by simp))
          exact ⟨p, List.mem_cons_of_mem _ hp, hxp⟩
        · obtain ⟨p, hp, hxp⟩ := ih (overlapWords ov current ++ [w])
            (sumLen (overlapWords ov current ++ [w]))
            (overlapWords ov current).length x (Or.inr h2)
          exact ⟨p, List.mem_cons_of_mem _ hp, hxp⟩
    · rcases hx with h | h
      · exact ih _ _ _ x (Or.inl (List.mem_append.mpr (Or.inl h)))
      · rcases List.mem_cons.mp h with h2 | h2
        · subst h2
          exact ih _ _ _ x (Or.inl (by simp))
        · exact ih _ _ _ x (Or.inr h2)

lemma HeadNW.ne_nil {s : List Char} (h : HeadNW s) : s ≠ [] := by
  obtain ⟨a, t, rfl, _⟩ := h
  simp

lemma HeadNW.dropWhile_eq_self {s : List Char} (h : HeadNW s) :
    (s.dropWhile fun c => c.isWhitespace) = s := by
  obtain ⟨a, t, rfl, ha⟩ := h
  simp [List.dropWhile_cons, ha]

lemma HeadNW.append (s t : List Char) (h : HeadNW s) : HeadNW (s ++ t) := by
  obtain ⟨a, u, rfl, ha⟩ := h
  exact ⟨a, u ++ t, rfl, ha⟩

lemma headNW_of_wordOK {w : List Char} (h : WordOK w) : HeadNW w := by
  obtain ⟨hne, hws⟩ := h
  obtain ⟨a, t, rfl⟩ := List.exists_cons_of_ne_nil hne
  exact ⟨a, t, rfl, hws a (List.mem_cons_self _ _)⟩

lemma headNW_reverse_of_wordOK {w : List Char} (h : WordOK w) : HeadNW w.reverse := by
  obtain ⟨hne, hws⟩ := h
  have hrne : w.reverse ≠ [] := by simpa using hne
  obtain ⟨a, t, heq⟩ := List.exists_cons_of_ne_nil hrne
  refine ⟨a, t, heq, hws a ?_⟩
  rw [← List.mem_reverse, heq]
  exact List.mem_cons_self _ _

lemma pyJoin_cons (w : List Char) (ws : List (List Char)) :
    ∃ t, pyJoin (w :: ws) = w ++ t := by
  cases ws with
  | nil => exact ⟨[], by simp [pyJoin]⟩
  | cons w2 ws => exact ⟨' ' :: pyJoin (w2 :: ws), rfl⟩

lemma headNW_pyJoin : ∀ ws : List (List Char), (∀ w ∈ ws, WordOK w) → ws ≠ [] →
    HeadNW (pyJoin ws) := by
  intro ws hok hne
  obtain ⟨w, rest, rfl⟩ := List.exists_cons_of_ne_nil hne
  obtain ⟨t, ht⟩ := pyJoin_cons w rest
  rw [ht]
  exact HeadNW.append _ _ (headNW_of_wordOK (hok w (List.mem_cons_self _ _)))

lemma headNW_reverse_pyJoin : ∀ ws : List (List Char), (∀ w ∈ ws, WordOK w) → ws ≠ [] →
    HeadNW (pyJoin ws).reverse := by
  intro ws
  induction ws with
  | nil => intro _ h; exact absurd rfl h
  | cons w rest ih =>
    intro hok _
    cases rest with
    | nil =>
      simp only [pyJoin]
      exact headNW_reverse_of_wordOK (hok w (List.mem_cons_self _ _))
    | cons w2 rest2 =>
      have hJ : HeadNW (pyJoin (w2 :: rest2)).reverse := by
        refine ih ?_ (by simp)
        intro x hx
        exact hok x (List.mem_cons_of_mem _ hx)
      obtain ⟨a, t, heq, ha⟩ := hJ
      refine ⟨a, t ++ ' ' :: w.reverse, ?_, ha⟩
      show (pyJoin (w :: w2 :: rest2)).reverse = _
      have : pyJoin (w :: w2 :: rest2) = w ++ ' ' :: pyJoin (w2 :: rest2) := rfl
      rw [this, List.reverse_append, List.reverse_cons, List.append_assoc, heq]
      simp

lemma pyStrip_eq_self {s : List Char} (h1 : HeadNW s) (h2 : HeadNW s.reverse) :
    pyStrip s = s := by
  unfold pyStrip
  rw [h1.dropWhile_eq_self, h2.dropWhile_eq_self, List.reverse_reverse]

lemma pyStrip_pyJoin (ws : List (List Char)) (hok : ∀ w ∈ ws, WordOK w) (hne : ws ≠ []) :
    pyStrip (pyJoin ws) = pyJoin ws ∧ pyJoin ws ≠ [] :=
  ⟨pyStrip_eq_self (headNW_pyJoin ws hok hne) (headNW_reverse_pyJoin ws hok hne),
   (headNW_pyJoin ws hok hne).ne_nil⟩

lemma chunkWordLists_ok (text : List Char) (cs ov : Nat) :
    ∀ c ∈ chunkWordLists text cs ov, c ≠ [] ∧ ∀ w ∈ c, WordOK w := by
  intro c hc
  rw [chunkWordLists, ← chunkLoopA_map_snd cs ov (pySplit text) [] 0 0] at hc
  obtain ⟨p, hp, hpc⟩ := List.mem_map.mp hc
  subst hpc
  refine ⟨chunkLoopA_ne_nil cs ov _ _ _ _ p hp, ?_⟩
  intro w hw
  rcases chunkLoopA_words_mem cs ov _ _ _ _ p hp w hw with h | h
  · simp at h
  · exact pySplit_wordsOK text w h

lemma chunk_text_eq (text : List Char) (cs ov : Nat) :
    _chunk_text text cs ov = (chunkWordLists text cs ov).map pyJoin := by
  unfold _chunk_text
  rw [show chunkLoop cs ov (pySplit text) [] 0 = chunkWordLists text cs ov from rfl]
  have hmap : ((chunkWordLists text cs ov).map pyJoin).map pyStrip
      = (chunkWordLists text cs ov).map pyJoin := by
    rw [List.map_map]
    refine List.map_congr_left ?_
    intro c hc
    obtain ⟨hne, hok⟩ := chunkWordLists_ok text cs ov c hc
    exact (pyStrip_pyJoin c hok hne).1
  rw [hmap]
  refine List.filter_eq_self.mpr ?_
  intro a ha
  obtain ⟨c, hc, hac⟩ := List.mem_map.mp ha
  subst hac
  obtain ⟨hne, hok⟩ := chunkWordLists_ok text cs ov c hc
  simpa using (pyStrip_pyJoin c hok hne).2

lemma chunkLoopA_top (cs ov : Nat) (ws : List (List Char)) :
    List.Chain' (SeedStep ov) (chunkLoopA cs ov ws [] 0 0) ∧
    ∀ h0 : 0 < (chunkLoopA cs ov ws [] 0 0).length,
      ((chunkLoopA cs ov ws [] 0 0).get ⟨0, h0⟩).1 = 0 := by
  cases ws with
  | nil =>
    constructor
    · simp [chunkLoopA]
    · intro h0; simp [chunkLoopA] at h0
  | cons w ws =>
    have hstep : chunkLoopA cs ov (w :: ws) [] 0 0
        = chunkLoopA cs ov ws [w] (0 + (w.length + 1)) 0 := by
      simp only [chunkLoopA]
      rw [if_neg (by simp)]
      simp
    obtain ⟨⟨ext, rest, heq⟩, hchain⟩ :=
      chunkLoopA_spec cs ov ws [w] (0 + (w.length + 1)) 0 (by simp)
    rw [hstep, heq]
    refine ⟨heq ▸ hchain, ?_⟩
    intro h0
    rfl

lemma retryGo_at_ok {α : Type} (op : Nat → Outcome α) {mr : Nat} (d : Nat) {attempt : Nat}
    {a : α} (hlt : attempt < mr) (hop : op attempt = Outcome.ok a) :
    retryGo op mr d attempt = (RetryResult.value a, []) := by
  rw [retryGo, dif_pos hlt, hop]

lemma retryGo_at_other {α : Type} (op : Nat → Outcome α) {mr : Nat} (d : Nat) {attempt : Nat}
    {e : String} (hlt : attempt < mr) (hop : op attempt = Outcome.otherErr e) :
    retryGo op mr d attempt = (RetryResult.raisedOther e, []) := by
  rw [retryGo, dif_pos hlt, hop]

lemma retryGo_at_last_conn {α : Type} (op : Nat → Outcome α) {mr : Nat} (d : Nat)
    {e : String} (hpos : 0 < mr) (hop : op (mr - 1) = Outcome.connErr e) :
    retryGo op mr d (mr - 1) = (RetryResult.raisedConn (connMsg mr e), []) := by
  rw [retryGo, dif_pos (by omega), hop]
  simp

lemma retryGo_skip {α : Type} (op : Nat → Outcome α) (mr d : Nat) :
    ∀ (k attempt : Nat), attempt + k < mr →
    (∀ j, attempt ≤ j → j < attempt + k → isConnErr (op j) = true) →
    retryGo op mr d attempt
      = ((retryGo op mr d (attempt + k)).1,
         ((List.range k).map fun j => d * 2 ^ (attempt + j))
           ++ (retryGo op mr d (attempt + k)).2) := by
  intro k
  induction k with
  | zero => intro attempt _ _; simp
  | succ k ih =>
    intro attempt hk hconn
    have hlt : attempt < mr := by omega
    have hcur : isConnErr (op attempt) = true :=
      hconn attempt (le_refl _) (by omega)
    obtain ⟨e, hop⟩ : ∃ e, op attempt = Outcome.connErr e := by
      cases hcase : op attempt <;> simp [isConnErr, hcase] at hcur ⊢
    have hnotlast : attempt ≠ mr - 1 := by omega
    have hstep : retryGo op mr d attempt
        = ((retryGo op mr d (attempt + 1)).1,
           d * 2 ^ attempt :: (retryGo op mr d (attempt + 1)).2) := by
      rw [retryGo, dif_pos hlt, hop]
      simp only [if_neg hnotlast]
    have hrec := ih (attempt + 1) (by omega)
      (fun j h1 h2 => hconn j (by omega) (by omega))
    rw [hstep, hrec]
    have harr : attempt + 1 + k = attempt + (k + 1) := by omega
    rw [harr]
    refine Prod.ext rfl ?_
    simp only [List.range_succ_eq_map, List.map_cons, List.map_map, pow_zero,
      Nat.add_zero, List.cons_append]
    refine congrArg₂ _ rfl (congrArg₂ _ ?_ rfl)
    refine List.map_congr_left ?_
    intro j _
    simp only [Function.comp_apply]
    have : attempt + 1 + j = attempt + (j + 1) := by omega
    rw [this]

lemma insertChunksLoop_invariant (docId : Nat) :
    ∀ (pairs : List (List Char × List Int)) (st : StoreState) (idx : Nat),
    (∀ r ∈ st.doc_chunks, r.embedding.length = EMBED_DIM) →
    ∀ r ∈ (insertChunksLoop docId st idx pairs).2.doc_chunks,
      r.embedding.length = EMBED_DIM := by
  intro pairs
  induction pairs with
  | nil => intro st idx h r hr; exact h r hr
  | cons p rest ih =>
    intro st idx h r hr
    obtain ⟨c, e⟩ := p
    simp only [insertChunksLoop] at hr
    split at hr
    · rename_i hdim
      refine ih _ _ ?_ r hr
      intro r2 hr2
      rcases List.mem_append.mp hr2 with h2 | h2
      · exact h r2 h2
      · simp only [List.mem_singleton] at h2
        subst h2
        exact hdim
    · exact h r hr

lemma insertChunksLoop_none_all_ok (docId : Nat) :
    ∀ (pairs : List (List Char × List Int)) (st : StoreState) (idx : Nat),
    (insertChunksLoop docId st idx pairs).1 = none →
    ∀ p ∈ pairs, p.2.length = EMBED_DIM := by
  intro pairs
  induction pairs with
  | nil => intro st idx _ p hp; simp at hp
  | cons q rest ih =>
    intro st idx hnone p hp
    obtain ⟨c, e⟩ := q
    simp only [insertChunksLoop] at hnone
    split at hnone
    · rename_i hdim
      rcases List.mem_cons.mp hp with h | h
      · subst h; exact hdim
      · exact ih _ _ hnone p h
    · simp at hnone

lemma embed_success_ok {texts : List (List Char)} {key : Option String}
    {vs embeddings : List (List Int)}
    (h : _embed_texts texts key (ProviderResponse.success vs) = Except.ok embeddings) :
    embeddings = vs := by
  unfold _embed_texts at h
  split at h
  · cases h
  · exact (Except.ok.inj h).symm

/-- C1: for every text and every `chunk_size > 0`, `overlap ≥ 0`,
`_chunk_text` is total and reconstructs its input: it equals the join of the
instrumented chunk list; concatenating the chunks' word lists after dropping
each chunk's overlap-seeded leading words yields exactly `text.split()`; the
seed counts are genuine (the chunks form a `SeedStep` chain and the first
chunk has seed 0); no returned chunk is empty or whitespace-only; and an
empty or whitespace-only input yields zero chunks. -/
theorem chunk_text_reconstructs (text : List Char) (chunk_size overlap : Nat)
    (hcs : 0 < chunk_size) :
    _chunk_text text chunk_size overlap
        = (chunkLoopA chunk_size overlap (pySplit text) [] 0 0).map (fun p => pyJoin p.2) ∧
    ((chunkLoopA chunk_size overlap (pySplit text) [] 0 0).map
        (fun p => p.2.drop p.1)).flatten = pySplit text ∧
    List.Chain' (SeedStep overlap) (chunkLoopA chunk_size overlap (pySplit text) [] 0 0) ∧
    (∀ h0 : 0 < (chunkLoopA chunk_size overlap (pySplit text) [] 0 0).length,
      ((chunkLoopA chunk_size overlap (pySplit text) [] 0 0).get ⟨0, h0⟩).1 = 0) ∧
    (∀ c ∈ _chunk_text text chunk_size overlap, c ≠ [] ∧ pyStrip c ≠ []) ∧
    ((∀ ch ∈ text, ch.isWhitespace = true) → _chunk_text text chunk_size overlap = []) := by
  refine ⟨?_, ?_, (chunkLoopA_top chunk_size overlap (pySplit text)).1,
    (chunkLoopA_top chunk_size overlap (pySplit text)).2, ?_, ?_⟩
  · rw [chunk_text_eq, chunkWordLists, ← chunkLoopA_map_snd chunk_size overlap (pySplit text) [] 0 0,
      List.map_map]
    rfl
  · rw [chunkLoopA_reconstruct chunk_size overlap (pySplit text) [] 0 0 (by simp)]
    simp
  · intro c hc
    rw [chunk_text_eq] at hc
    obtain ⟨wl, hwl, hcwl⟩ := List.mem_map.mp hc
    subst hcwl
    obtain ⟨hne, hok⟩ := chunkWordLists_ok text chunk_size overlap wl hwl
    obtain ⟨hstrip, hjne⟩ := pyStrip_pyJoin wl hok hne
    refine ⟨hjne, ?_⟩
    rw [hstrip]
    exact hjne
  · intro hws
    rw [chunk_text_eq, chunkWordLists, pySplit_all_ws text hws]
    rfl

/-- C1 witness: the theorem applied at a concrete input. -/
theorem chunk_text_reconstructs_witness :
    ((chunkLoopA 5 2 (pySplit ("a b".toList)) [] 0 0).map
        (fun p => p.2.drop p.1)).flatten = pySplit ("a b".toList) :=
  (chunk_text_reconstructs ("a b".toList) 5 2 (by decide)).2.1

/-- C2: with `overlap > 0`, when `_chunk_text` emits chunk `i+1` after
chunk `i` and chunk `i` has at least `overlap / 5` words, the word list of
chunk `i+1` begins with exactly the last `overlap / 5` words of chunk `i`
(and `_chunk_text` is the space-join of those word lists). -/
theorem chunk_overlap_words (text : List Char) (chunk_size overlap : Nat)
    (hov : 0 < overlap) (i : Nat)
    (h1 : i < (chunkWordLists text chunk_size overlap).length)
    (h2 : i + 1 < (chunkWordLists text chunk_size overlap).length)
    (hlen : overlap / 5 ≤ ((chunkWordLists text chunk_size overlap).get ⟨i, h1⟩).length) :
    ((chunkWordLists text chunk_size overlap).get ⟨i + 1, h2⟩).take (overlap / 5)
      = ((chunkWordLists text chunk_size overlap).get ⟨i, h1⟩).drop
          (((chunkWordLists text chunk_size overlap).get ⟨i, h1⟩).length - overlap / 5) ∧
    _chunk_text text chunk_size overlap
      = (chunkWordLists text chunk_size overlap).map pyJoin := by
  refine ⟨?_, chunk_text_eq text chunk_size overlap⟩
  by_cases hk : overlap / 5 = 0
  · rw [hk, Nat.sub_zero, List.take_zero, List.drop_length]
  · have hL : chunkWordLists text chunk_size overlap
        = (chunkLoopA chunk_size overlap (pySplit text) [] 0 0).map Prod.snd := by
      rw [chunkWordLists, chunkLoopA_map_snd chunk_size overlap (pySplit text) [] 0 0]
    have hAlen : i + 1 < (chunkLoopA chunk_size overlap (pySplit text) [] 0 0).length := by
      rw [hL, List.length_map] at h2
      exact h2
    have hiA : i < (chunkLoopA chunk_size overlap (pySplit text) [] 0 0).length := by omega
    have hchain := (chunkLoopA_top chunk_size overlap (pySplit text)).1
    have hstep := List.chain'_iff_get.mp hchain i (by omega)
    obtain ⟨hseed, htake⟩ := hstep
    have e1 : (chunkWordLists text chunk_size overlap).get ⟨i, h1⟩
        = ((chunkLoopA chunk_size overlap (pySplit text) [] 0 0).get ⟨i, hiA⟩).2 := by
      simp only [hL, List.get_eq_getElem, List.getElem_map]
    have e2 : (chunkWordLists text chunk_size overlap).get ⟨i + 1, h2⟩
        = ((chunkLoopA chunk_size overlap (pySplit text) [] 0 0).get ⟨i + 1, hAlen⟩).2 := by
      simp only [hL, List.get_eq_getElem, List.getElem_map]
    rw [e1] at hlen ⊢
    rw [e2]
    set p := (chunkLoopA chunk_size overlap (pySplit text) [] 0 0).get ⟨i, hiA⟩ with hp
    set q := (chunkLoopA chunk_size overlap (pySplit text) [] 0 0).get ⟨i + 1, hAlen⟩ with hq
    have how : overlapWords overlap p.2 = p.2.drop (p.2.length - overlap / 5) := by
      unfold overlapWords
      rw [if_pos hov, if_neg hk]
    have hlenow : (overlapWords overlap p.2).length = overlap / 5 := by
      rw [how, List.length_drop]
      omega
    have hq1 : q.1 = overlap / 5 := by rw [hseed, hlenow]
    calc q.2.take (overlap / 5) = q.2.take q.1 := by rw [hq1]
      _ = overlapWords overlap p.2 := htake
      _ = p.2.drop (p.2.length - overlap / 5) := how

/-- C2 witness: the theorem applied at a concrete input. -/
theorem chunk_overlap_words_witness :
    ((chunkWordLists ("a b c d e f g h".toList) 6 10).get ⟨1, by decide⟩).take (10 / 5)
      = ((chunkWordLists ("a b c d e f g h".toList) 6 10).get ⟨0, by decide⟩).drop
          (((chunkWordLists ("a b c d e f g h".toList) 6 10).get ⟨0, by decide⟩).length
            - 10 / 5) :=
  (chunk_overlap_words ("a b c d e f g h".toList) 6 10 (by decide) 0 (by decide)
    (by decide) (by decide)).1

/-- C3: `_retry_request` makes at most `max_retries` attempts, retries only
connectivity/timeout failures sleeping `delay * 2 ^ attempt` between
consecutive attempts, propagates any other failure immediately with no
further sleep, wraps the last cause and the attempt count in the
connectivity error raised when every attempt fails, and returns the
operation's result immediately on the first success. -/
theorem retry_request_policy {α : Type} (op : Nat → Outcome α) (max_retries delay : Nat) :
    (∀ k a, k < max_retries → (∀ j, j < k → isConnErr (op j) = true) →
      op k = Outcome.ok a →
      _retry_request op max_retries delay
        = (RetryResult.value a, (List.range k).map fun j => delay * 2 ^ j)) ∧
    (∀ k e, k < max_retries → (∀ j, j < k → isConnErr (op j) = true) →
      op k = Outcome.otherErr e →
      _retry_request op max_retries delay
        = (RetryResult.raisedOther e, (List.range k).map fun j => delay * 2 ^ j)) ∧
    (∀ e, 0 < max_retries → (∀ j, j < max_retries → isConnErr (op j) = true) →
      op (max_retries - 1) = Outcome.connErr e →
      _retry_request op max_retries delay
        = (RetryResult.raisedConn (connMsg max_retries e),
           (List.range (max_retries - 1)).map fun j => delay * 2 ^ j)) := by
  have hexp : ∀ k : Nat, ((List.range k).map fun j => delay * 2 ^ (0 + j))
      = (List.range k).map fun j => delay * 2 ^ j := by
    intro k
    refine List.map_congr_left ?_
    intro j _
    rw [Nat.zero_add]
  refine ⟨?_, ?_, ?_⟩
  · intro k a hk hconn hop
    have hskip := retryGo_skip op max_retries delay k 0 (by omega)
      (fun j _ hj => hconn j (by omega))
    rw [_retry_request, hskip, Nat.zero_add,
      retryGo_at_ok op delay hk hop, hexp]
    simp
  · intro k e hk hconn hop
    have hskip := retryGo_skip op max_retries delay k 0 (by omega)
      (fun j _ hj => hconn j (by omega))
    rw [_retry_request, hskip, Nat.zero_add,
      retryGo_at_other op delay hk hop, hexp]
    simp
  · intro e hpos hconn hop
    have hskip := retryGo_skip op max_retries delay (max_retries - 1) 0 (by omega)
      (fun j _ hj => hconn j (by omega))
    rw [_retry_request, hskip, Nat.zero_add,
      retryGo_at_last_conn op delay hpos hop, hexp]
    simp

/-- C3 witness: connectivity failures on attempts 0 and 1 and success on
attempt 2 return the value after sleeping 2 then 4 seconds. -/
theorem retry_request_policy_witness :
    _retry_request sampleOp 3 2 = (RetryResult.value 42, [2, 4]) := by
  have h := (retry_request_policy sampleOp 3 2).1 2 42 (by decide) (by decide) (by decide)
  rw [h]
  decide

/-- C8 counterexample: with `chunk_size = 5`, `overlap = 5`, the input
`"aa bbbbbbbb"` contains the word `"bbbbbbbb"` of length 8 > 5, yet no
emitted chunk consists of that word alone — the chunk containing it also
carries the overlap-seeded word `"aa"`. -/
theorem chunk_long_word_counterexample :
    (∃ w ∈ pySplit ("aa bbbbbbbb".toList), 5 < w.length) ∧
    _chunk_text ("aa bbbbbbbb".toList) 5 5 = ["aa".toList, "aa bbbbbbbb".toList] ∧
    ∀ c ∈ _chunk_text ("aa bbbbbbbb".toList) 5 5, c ≠ "bbbbbbbb".toList := by
  decide

/-- C8 amended: a word longer than `chunk_size` is never split across
chunks — every input word (in particular any over-long one) appears intact
as a word of some chunk, and every chunk consists solely of whole input
words — but the chunk containing it need not be that word alone, since the
overlap seeding may place other words before it. -/
theorem chunk_long_word_never_split (text : List Char) (chunk_size overlap : Nat)
    (hcs : 0 < chunk_size) :
    (∀ w ∈ pySplit text, ∃ c ∈ chunkWordLists text chunk_size overlap, w ∈ c) ∧
    (∀ c ∈ chunkWordLists text chunk_size overlap, ∀ w ∈ c, w ∈ pySplit text) ∧
    _chunk_text text chunk_size overlap
      = (chunkWordLists text chunk_size overlap).map pyJoin := by
  refine ⟨?_, ?_, chunk_text_eq text chunk_size overlap⟩
  · intro w hw
    obtain ⟨p, hp, hwp⟩ := chunkLoopA_covers chunk_size overlap (pySplit text) [] 0 0 w
      (Or.inr hw)
    refine ⟨p.2, ?_, hwp⟩
    rw [chunkWordLists, ← chunkLoopA_map_snd chunk_size overlap (pySplit text) [] 0 0]
    exact List.mem_map.mpr ⟨p, hp, rfl⟩
  · intro c hc w hw
    rw [chunkWordLists, ← chunkLoopA_map_snd chunk_size overlap (pySplit text) [] 0 0] at hc
    obtain ⟨p, hp, hpc⟩ := List.mem_map.mp hc
    subst hpc
    rcases chunkLoopA_words_mem chunk_size overlap (pySplit text) [] 0 0 p hp w hw with h | h
    · simp at h
    · exact h

/-- C8 amended witness: the long word `"bbbbbbbb"` appears intact in a
chunk of `_chunk_text "aa bbbbbbbb" 5 5`. -/
theorem chunk_long_word_never_split_witness :
    ∃ c ∈ chunkWordLists ("aa bbbbbbbb".toList) 5 5, "bbbbbbbb".toList ∈ c :=
  (chunk_long_word_never_split ("aa bbbbbbbb".toList) 5 5 (by decide)).1
    ("bbbbbbbb".toList) (by decide)

set_option maxRecDepth 100000 in
/-- C4 counterexample: a provider response whose second vector is malformed
(length 1535 ≠ 1536) makes `add_document` fail, but the first chunk row has
already been persisted when the failure occurs (autocommit: the store ends
with one chunk row although it started with none), so the call does NOT
fail before any chunk row is persisted. -/
theorem add_document_partial_persist_counterexample :
    (List.replicate 1535 (0 : Int)).length ≠ EMBED_DIM ∧
    (add_document ⟨[], []⟩ 1 ("a.txt".toList) (some sampleContent) none
        (some "k") sampleBadResp).1
      = Except.error (PyError.storeError "expected 1536 dimensions, not 1535") ∧
    (add_document ⟨[], []⟩ 1 ("a.txt".toList) (some sampleContent) none
        (some "k") sampleBadResp).2.doc_chunks.length = 1 := by
  exact ⟨by decide, rfl, rfl⟩

/-- C4 amended: a chunk row with a malformed-dimension embedding is never
stored — the store's `VECTOR(1536)` column rejects it, every persisted row
keeps the configured dimension, and a malformed vector paired with a chunk
makes the call fail — but rows inserted before the malformed one (and the
document row) may already be durable, because `add_document` runs with
autocommit and no enclosing transaction. -/
theorem add_document_rejects_bad_dimension (st : StoreState) (docId : Nat)
    (filename : List Char) (content : Option (List Char))
    (mime : Option (List Char)) (key : Option String) (vs : List (List Int))
    (hinv : ∀ r ∈ st.doc_chunks, r.embedding.length = EMBED_DIM) :
    (∀ r ∈ (add_document st docId filename content mime key
        (ProviderResponse.success vs)).2.doc_chunks,
      r.embedding.length = EMBED_DIM) ∧
    ((∃ p ∈ (_chunk_text (content.getD []) 1200 200).zip vs,
        p.2.length ≠ EMBED_DIM) →
      ∃ e, (add_document st docId filename content mime key
        (ProviderResponse.success vs)).1 = Except.error e) := by
  unfold add_document
  split
  · exact ⟨hinv, fun _ => ⟨PyError.valueError "filename and content are required", rfl⟩⟩
  · dsimp only
    split
    · rename_i e heq
      exact ⟨hinv, fun _ => ⟨e, rfl⟩⟩
    · rename_i embeddings heq
      have hemb : embeddings = if _chunk_text (content.getD []) 1200 200 ≠ []
          then vs else [] := by
        by_cases hch : _chunk_text (content.getD []) 1200 200 ≠ []
        · rw [if_pos hch]
          rw [if_pos hch] at heq
          exact embed_success_ok heq
        · rw [if_neg hch]
          rw [if_neg hch] at heq
          exact (Except.ok.inj heq).symm
      split
      · rename_i e st2 heq2
        refine ⟨?_, fun _ => ⟨e, rfl⟩⟩
        intro r hr
        have hstore := insertChunksLoop_invariant docId
          ((_chunk_text (content.getD []) 1200 200).zip embeddings)
          { documents := st.documents ++ [⟨docId, filename, mime, content.getD []⟩],
            doc_chunks := st.doc_chunks } 0 hinv
        rw [heq2] at hstore
        exact hstore r hr
      · rename_i st2 heq2
        constructor
        · intro r hr
          have hstore := insertChunksLoop_invariant docId
            ((_chunk_text (content.getD []) 1200 200).zip embeddings)
            { documents := st.documents ++ [⟨docId, filename, mime, content.getD []⟩],
              doc_chunks := st.doc_chunks } 0 hinv
          rw [heq2] at hstore
          exact hstore r hr
        · intro hbad
          exfalso
          obtain ⟨p, hp, hplen⟩ := hbad
          have hall := insertChunksLoop_none_all_ok docId
            ((_chunk_text (content.getD []) 1200 200).zip embeddings)
            { documents := st.documents ++ [⟨docId, filename, mime, content.getD []⟩],
              doc_chunks := st.doc_chunks } 0 (by rw [heq2])
          by_cases hch : _chunk_text (content.getD []) 1200 200 ≠ []
          · refine hplen (hall p ?_)
            rw [hemb, if_pos hch]
            exact hp
          · push_neg at hch
            rw [hch] at hp
            simp at hp

/-- C4 amended witness: a single malformed vector paired with the single
chunk of `"x"` makes the call fail, and the resulting store still satisfies
the dimension invariant. -/
theorem add_document_rejects_bad_dimension_witness :
    (∀ r ∈ (add_document ⟨[], []⟩ 9 ("a.txt".toList) (some ("x".toList)) none
        (some "k") (ProviderResponse.success [List.replicate 10 (0 : Int)])).2.doc_chunks,
      r.embedding.length = EMBED_DIM) ∧
    ∃ e, (add_document ⟨[], []⟩ 9 ("a.txt".toList) (some ("x".toList)) none
        (some "k") (ProviderResponse.success [List.replicate 10 (0 : Int)])).1
      = Except.error e := by
  have h := add_document_rejects_bad_dimension ⟨[], []⟩ 9 ("a.txt".toList)
    (some ("x".toList)) none (some "k") [List.replicate 10 (0 : Int)] (by simp)
  exact ⟨h.1, h.2 (by decide)⟩

/-- C5: `search_documents` never raises — every failure of the query
embedding or of the store lookup is caught and converted into a well-formed
result with an empty match list and `str(e)` in the error field, and every result either carries no
error or carries an empty match list. -/
theorem search_documents_never_raises (q : List Char) (tk : Nat)
    (key : Option String) (resp : ProviderResponse) (ext : Bool)
    (st : StoreState) (sf : Option PyError) (nn : List MatchRow) (hq : q ≠ []) :
    (∀ e, _embed_texts [q] key resp = Except.error e →
      search_documents q tk key resp ext st sf nn = ⟨[], some (pyErrMsg e)⟩) ∧
    (_embed_texts [q] key resp = Except.ok [] →
      search_documents q tk key resp ext st sf nn
        = ⟨[], some "list index out of range"⟩) ∧
    (∀ v vecs e, _embed_texts [q] key resp = Except.ok (v :: vecs) → sf = some e →
      search_documents q tk key resp ext st sf nn = ⟨[], some (pyErrMsg e)⟩) ∧
    (∀ v vecs, _embed_texts [q] key resp = Except.ok (v :: vecs) → sf = none →
      ext = false →
      search_documents q tk key resp ext st sf nn
        = ⟨[], some "pgvector extension not found"⟩) ∧
    ((search_documents q tk key resp ext st sf nn).error = none ∨
      (search_documents q tk key resp ext st sf nn).matchRows = []) := by
  refine ⟨?_, ?_, ?_, ?_, ?_⟩
  · intro e hemb
    unfold search_documents
    rw [if_neg hq, hemb]
  · intro hemb
    unfold search_documents
    rw [if_neg hq, hemb]
  · intro v vecs e hemb hsf
    unfold search_documents
    rw [if_neg hq, hemb, hsf]
  · intro v vecs hemb hsf hext
    unfold search_documents
    rw [if_neg hq, hemb, hsf, hext]
    simp
  · unfold search_documents
    rw [if_neg hq]
    cases hemb : _embed_texts [q] key resp with
    | error e => simp
    | ok vecs =>
      cases vecs with
      | nil => simp
      | cons v rest =>
        cases sf with
        | some e => simp
        | none =>
          cases ext with
          | false => simp
          | true =>
            by_cases hlen : st.doc_chunks.length = 0 <;> simp [hlen]

/-- C5 witness: with no API key configured the embedding call fails and the
failure is surfaced in the `error` field with an empty match list. -/
theorem search_documents_never_raises_witness :
    search_documents ("hi".toList) 5 none ProviderResponse.timeout true
        ⟨[], []⟩ none []
      = ⟨[], some "OPENAI_API_KEY is required for embeddings in MCP server"⟩ :=
  (search_documents_never_raises ("hi".toList) 5 none ProviderResponse.timeout true
      ⟨[], []⟩ none [] (by decide)).1
    (PyError.runtimeError "OPENAI_API_KEY is required for embeddings in MCP server") rfl

/-- C6 counterexample: empty-string content is NOT rejected — Python's
check is `if not filename or content is None`, so `add_document` with
`content = ""` succeeds, creates the document row (a store write IS
performed) and reports zero chunks, even with no API key and a failing
provider. -/
theorem add_document_empty_content_counterexample :
    (add_document ⟨[], []⟩ 2 ("a.txt".toList) (some []) none none
        ProviderResponse.timeout).1 = Except.ok ⟨2, 0⟩ ∧
    (add_document ⟨[], []⟩ 2 ("a.txt".toList) (some []) none none
        ProviderResponse.timeout).2.documents
      = [⟨2, "a.txt".toList, none, []⟩] := by
  exact ⟨rfl, rfl⟩

/-- C6 amended: an empty filename or a null (`None`) content makes
`add_document` fail with the validation `ValueError` and leaves the store
untouched (no chunking, embedding call or store write happens); an
empty-string content, however, passes validation and creates a document
with zero chunks, skipping the embedding call. -/
theorem add_document_validation (st : StoreState) (docId : Nat)
    (filename : List Char) (content : Option (List Char))
    (mime : Option (List Char)) (key : Option String) (resp : ProviderResponse)
    (h : filename = [] ∨ content = none) :
    add_document st docId filename content mime key resp
      = (Except.error (PyError.valueError "filename and content are required"), st) ∧
    ∀ filename2 : List Char, filename2 ≠ [] →
      (add_document st docId filename2 (some []) mime key resp).1
        = Except.ok ⟨docId, 0⟩ ∧
      (add_document st docId filename2 (some []) mime key resp).2.doc_chunks
        = st.doc_chunks := by
  constructor
  · unfold add_document
    rw [if_pos h]
  · intro filename2 hf2
    unfold add_document
    rw [if_neg (by simp [hf2])]
    simp only [Option.getD_some]
    have hch : _chunk_text [] 1200 200 = [] := rfl
    rw [hch]
    simp [insertChunksLoop]

/-- C6 amended witness: the theorem applied with a null content. -/
theorem add_document_validation_witness :
    add_document ⟨[], []⟩ 3 ("a.txt".toList) none none none ProviderResponse.timeout
      = (Except.error (PyError.valueError "filename and content are required"),
         (⟨[], []⟩ : StoreState)) :=
  (add_document_validation ⟨[], []⟩ 3 ("a.txt".toList) none none none
    ProviderResponse.timeout (Or.inr rfl)).1

/-- C7: `delete_document` is idempotent — it always returns the
acknowledgment carrying `docId` in its deleted field, whether or not a document with that id
exists, and when no row carries the id the store is unchanged. -/
theorem delete_document_idempotent (st : StoreState) (docId : Nat)
    (hdoc : ∀ d ∈ st.documents, d.id ≠ docId)
    (hchunk : ∀ c ∈ st.doc_chunks, c.doc_id ≠ docId) :
    (delete_document st docId).1 = ⟨docId⟩ ∧
    (delete_document st docId).2 = st ∧
    ∀ st2 : StoreState, (delete_document st2 docId).1 = ⟨docId⟩ := by
  refine ⟨rfl, ?_, fun st2 => rfl⟩
  obtain ⟨docs, chunks⟩ := st
  simp only [delete_document, StoreState.mk.injEq]
  constructor
  · refine List.filter_eq_self.mpr ?_
    intro d hd
    simpa using hdoc d hd
  · refine List.filter_eq_self.mpr ?_
    intro c hc
    simpa using hchunk c hc

/-- C7 witness: deleting an id absent from a non-empty store returns the
normal acknowledgment and leaves the store unchanged. -/
theorem delete_document_idempotent_witness :
    (delete_document ⟨[⟨1, "a".toList, none, []⟩], []⟩ 2).1 = ⟨2⟩ ∧
    (delete_document ⟨[⟨1, "a".toList, none, []⟩], []⟩ 2).2
      = ⟨[⟨1, "a".toList, none, []⟩], []⟩ := by
  have h := delete_document_idempotent ⟨[⟨1, "a".toList, none, []⟩], []⟩ 2
    (by decide) (by decide)
  exact ⟨h.1, h.2.1⟩

/-- C9: a non-empty query against a store holding zero chunks, with a
successful query embedding and a reachable store with the pgvector
extension, returns an empty match list with no error field. -/
theorem search_documents_empty_store (q : List Char) (tk : Nat)
    (key : Option String) (resp : ProviderResponse) (st : StoreState)
    (nn : List MatchRow) (hq : q ≠ []) (v : List Int) (vecs : List (List Int))
    (hemb : _embed_texts [q] key resp = Except.ok (v :: vecs))
    (hempty : st.doc_chunks = []) :
    search_documents q tk key resp true st none nn = ⟨[], none⟩ := by
  unfold search_documents
  rw [if_neg hq, hemb]
  simp [hempty]

/-- C9 witness: the theorem applied at a concrete empty store. -/
theorem search_documents_empty_store_witness :
    search_documents ("hi".toList) 5 (some "k")
        (ProviderResponse.success [[1]]) true ⟨[], []⟩ none [] = ⟨[], none⟩ :=
  search_documents_empty_store ("hi".toList) 5 (some "k")
    (ProviderResponse.success [[1]]) ⟨[], []⟩ [] (by decide) [1] [] rfl rfl

/-- C10: an empty query short-circuits to an empty match list with no error
field; the result is the same for every provider response, API key, store
state and store behavior, which models that neither the embedding provider
nor the store is contacted. -/
theorem search_documents_empty_query (tk : Nat) (key : Option String)
    (resp : ProviderResponse) (ext : Bool) (st : StoreState)
    (sf : Option PyError) (nn : List MatchRow) :
    search_documents [] tk key resp ext st sf nn = ⟨[], none⟩ := rfl

end McpTraining
